import Mathlib

/-!
# Verification of the qubo-nn dataset-generation pipeline

A shallow embedding of `qubo_nn/pipeline.py` (classes `Classification` and
`ReverseRegression`).  Matrices hold real-valued coefficients; we model them
over `ℚ` so that all definitions stay executable and decidable.  Machine
floats only matter for the normalization round-trip claim, which the spec
itself states is exact over the reals.
-/

namespace QuboNN

/-- A QUBO matrix: a list of rows of rational coefficients
(`np.float32` values in the source, modelled over `ℚ`). -/
abbrev Mat : Type := List (List ℚ)

/-- Entry access `M[r][c]`, defaulting to `0` outside the stored shape
(the source always indexes inside a `qubo_size × qubo_size` array). -/
def matEntry (M : Mat) (r c : Nat) : ℚ := (M.getD r []).getD c 0

/-- The `qubo_size × qubo_size` all-zeros matrix, as produced by
`np.zeros(shape=(..., qubo_size, qubo_size))` in `Classification._gen_data`. -/
def zeroMat (qsize : Nat) : Mat := List.replicate qsize (List.replicate qsize 0)

/-- The scrambler step of `Classification._gen_data` (pipeline.py lines 65-68):

    rand_idx1 = random.randint(0, self.qubo_size - 1)
    rand_idx2 = random.randint(0, self.qubo_size - 1)
    val = qubo_matrices[j][[rand_idx2, rand_idx1]]
    qubo_matrices[j][[rand_idx1, rand_idx2]] = val

NumPy fancy indexing on the first axis: row `i1` becomes the old row `i2`
and row `i2` becomes the old row `i1`.  Columns are untouched. -/
def scrambleSwap (M : Mat) (i1 i2 : Nat) : Mat :=
  (List.range M.length).map fun j =>
    if j = i1 then M.getD i2 [] else if j = i2 then M.getD i1 [] else M.getD j []

/-- The transposition of indices `i1` and `i2` on `Nat`. -/
def transp (i1 i2 j : Nat) : Nat := if j = i1 then i2 else if j = i2 then i1 else j

/-- Modelled from the spec (§4.3 / claim wording), for comparison with
`scrambleSwap`: "swap rows then columns at those indices (a symmetric
permutation)", i.e. the matrix `Pᵀ M P` with entries `M[τ r][τ c]` for the
transposition `τ` of the two indices. -/
def symPermSpec (M : Mat) (i1 i2 : Nat) : Mat :=
  (List.range M.length).map fun r =>
    (List.range M.length).map fun c =>
      matEntry M (transp i1 i2 r) (transp i1 i2 c)

/-! ## Problem-specific customizers (`ReverseRegression`) -/

/-- A literal `(variable_index, polarity)` of a SAT clause. -/
abbrev Lit : Type := Nat × Bool

/-- A dense rank-2 target array, modelled as an entry function
(the source uses `np.zeros(shape=(1, qubo_size, qubo_size))` and only ever
reads/writes individual entries; entries never written stay `0`). -/
abbrev Arr2 : Type := Nat → Nat → ℚ

/-- A dense rank-3 target array, modelled as an entry function. -/
abbrev Arr3 : Type := Nat → Nat → Nat → ℚ

/-- In-place accumulation `a[r][c] += v` on a rank-2 array. -/
def upd2 (m : Arr2) (r c : Nat) (v : ℚ) : Arr2 :=
  fun a b => if a = r ∧ b = c then m a b + v else m a b

/-- In-place accumulation `a[x][y][z] += v` on a rank-3 array. -/
def upd3 (t : Arr3) (x y z : Nat) (v : ℚ) : Arr3 :=
  fun a b c => if a = x ∧ b = y ∧ c = z then t a b c + v else t a b c

/-- One clause of `ReverseRegression.gen_apply_m2sat_customization`
(pipeline.py lines 241-253): four independent `if` tests on the polarity
pair, each adding a signed contribution at `[var0][var1]` and `[var1][var0]`.
The four conditions are mutually exclusive and exhaustive over the booleans,
so exactly one branch fires per clause. -/
def applyClause2 (m : Arr2) (cl : Lit × Lit) : Arr2 :=
  let m := if cl.1.2 && cl.2.2 then
    upd2 (upd2 m cl.1.1 cl.2.1 (-2)) cl.2.1 cl.1.1 (-2) else m
  let m := if !cl.1.2 && !cl.2.2 then
    upd2 (upd2 m cl.1.1 cl.2.1 1) cl.2.1 cl.1.1 1 else m
  let m := if cl.1.2 && !cl.2.2 then
    upd2 (upd2 m cl.1.1 cl.2.1 (-1)) cl.2.1 cl.1.1 (-1) else m
  let m := if !cl.1.2 && cl.2.2 then
    upd2 (upd2 m cl.1.1 cl.2.1 2) cl.2.1 cl.1.1 2 else m
  m

/-- The M2SAT customization target for one problem instance: start from
`np.zeros` and accumulate every clause. -/
def m2satMatrix (clauses : List (Lit × Lit)) : Arr2 :=
  clauses.foldl applyClause2 (fun _ _ => 0)

/-- The signed contribution keyed by the polarity pair, as in the claim:
`(true,true) ↦ -2`, `(false,false) ↦ +1`, `(true,false) ↦ -1`,
`(false,true) ↦ +2`. -/
def m2satWeight (p0 p1 : Bool) : ℚ :=
  if p0 && p1 then -2
  else if !p0 && !p1 then 1
  else if p0 && !p1 then -1
  else 2

/-- The total contribution of one clause to entry `(a,b)`: its weight counted
once for the write at `[var0][var1]` and once for the write at
`[var1][var0]` (they coincide when the two variables are equal). -/
def contrib2 (cl : Lit × Lit) (a b : Nat) : ℚ :=
  (if a = cl.1.1 ∧ b = cl.2.1 then m2satWeight cl.1.2 cl.2.2 else 0) +
  (if a = cl.2.1 ∧ b = cl.1.1 then m2satWeight cl.1.2 cl.2.2 else 0)

/-- The `value` computation of `ReverseRegression.gen_apply_m3sat_customization`
(pipeline.py lines 266-281): eight sequential `if` statements, each
overwriting `value`; the eight conditions are mutually exclusive and cover
every polarity pattern, so the initial placeholder is never the result. -/
def m3satValue (p0 p1 p2 : Bool) : ℚ :=
  let v : ℚ := 0
  let v := if p0 && p1 && p2 then -4 else v
  let v := if p0 && !p1 && p2 then -3 else v
  let v := if p0 && p1 && !p2 then -2 else v
  let v := if p0 && !p1 && !p2 then -1 else v
  let v := if !p0 && p1 && p2 then 1 else v
  let v := if !p0 && !p1 && p2 then 2 else v
  let v := if !p0 && !p1 && !p2 then 3 else v
  let v := if !p0 && p1 && !p2 then 4 else v
  v

/-- `itertools.permutations(clause, 3)`: the six orderings of the three
literals of a clause, in Python's enumeration order. -/
def perms3 (cl : Lit × Lit × Lit) : List (Lit × Lit × Lit) :=
  [(cl.1, cl.2.1, cl.2.2), (cl.1, cl.2.2, cl.2.1),
   (cl.2.1, cl.1, cl.2.2), (cl.2.1, cl.2.2, cl.1),
   (cl.2.2, cl.1, cl.2.1), (cl.2.2, cl.2.1, cl.1)]

/-- One clause of `gen_apply_m3sat_customization` (pipeline.py lines 265-287):
compute `value` from the polarity pattern, then `new_p[0][x][y][z] += value`
for every permutation `(x,y,z)` of the clause's variable indices. -/
def applyClause3 (t : Arr3) (cl : Lit × Lit × Lit) : Arr3 :=
  (perms3 cl).foldl
    (fun t p => upd3 t p.1.1 p.2.1.1 p.2.2.1 (m3satValue cl.1.2 cl.2.1.2 cl.2.2.2)) t

/-- The M3SAT customization target for one problem instance. -/
def m3satTensor (clauses : List (Lit × Lit × Lit)) : Arr3 :=
  clauses.foldl applyClause3 (fun _ _ _ => 0)

/-- How many of the six literal permutations of `cl` put their variable
indices exactly at the coordinate `(a,b,c)`. -/
def permCount (cl : Lit × Lit × Lit) (a b c : Nat) : Nat :=
  ((perms3 cl).filter fun p => a = p.1.1 ∧ b = p.2.1.1 ∧ c = p.2.2.1).length

/-! ## `Classification._gen_data`: block assembly of `data` and `labels`

`data` is pre-allocated with `np.zeros(shape=(len(problems) * n_problems,
qubo_size, qubo_size))`; for each class `i` the generated batch is written
into the block `[i*n_problems, (i+1)*n_problems)` — only a prefix of it when
the batch is short (pipeline.py lines 82-85) — and `labels[idx_start:idx_end]
= i` unconditionally covers the whole block (line 86). -/

/-- The block of `n_problems` records for one class: the batch written into
the prefix, the zero-initialised remainder untouched.  When the batch is not
short, NumPy's `data[idx_start:idx_end] = qubo_matrices` requires exactly
`n` matrices, so the block is the batch itself. -/
def writeBlock (n qsize : Nat) (ms : List Mat) : List Mat :=
  if ms.length < n then ms ++ List.replicate (n - ms.length) (zeroMat qsize)
  else ms.take n

/-- The full `data` array: one block per configured problem class, in
configuration order. -/
def genDataMats (n qsize : Nat) (batches : List (List Mat)) : List Mat :=
  batches.flatMap (writeBlock n qsize)

/-- The full `labels` array: `labels[i*n_problems:(i+1)*n_problems] = i` for
every class index `i`, in insertion order. -/
def genLabels (numClasses n : Nat) : List Nat :=
  (List.range numClasses).flatMap fun i => List.replicate n i

/-! ## Normalization (`norm_data` branch, pipeline.py lines 75-76)

    qubo_matrices /= np.max(np.abs(qubo_matrices))
    qubo_matrices = (qubo_matrices + 1) / 2.
-/

/-- `np.max(np.abs(vs))` over the flattened batch (all entries are compared
against the `0` start, which is never larger than an absolute value). -/
def maxAbs (vs : List ℚ) : ℚ := vs.foldl (fun acc x => max acc |x|) 0

/-- The max-abs-rescale normalization applied to every value of a batch. -/
def normMaxAbs (vs : List ℚ) : List ℚ :=
  vs.map fun x => (x / maxAbs vs + 1) / 2

/-- The inverse affine map `y ↦ (2y - 1) * m` from the claim, applied with
the batch's own maximum absolute value. -/
def denormMaxAbs (m : ℚ) (vs : List ℚ) : List ℚ :=
  vs.map fun y => (2 * y - 1) * m

/-! ## Flattener (`ReverseRegression.flatten_problem_parameters`)

The source dispatches on the runtime type of each field value (pipeline.py
lines 176-193).  We model the dynamic values a field can hold; `list`,
`tuple` and `np.ndarray` are dispatched identically by the source, so a
single sequence constructor covers them.  A graph value carries both of its
flattened representations (`nx.to_numpy_matrix` dense adjacency and the
sorted edge list), between which the `gen_edges` flag selects.  Failures
(Python exceptions) are `Except.error`. -/

/-- A dynamic Python value stored in a problem-instance field. -/
inductive PyVal : Type where
  | int (n : Int)
  | float (q : ℚ)
  | seq (xs : List PyVal)
  | graph (adj : List (List ℚ)) (edges : List (ℚ × ℚ))
  deriving Repr

/-- `float(x)`: numeric cast, a `TypeError` on non-numeric values. -/
def toFloat : PyVal → Except String ℚ
  | .int n => .ok (n : ℚ)
  | .float q => .ok q
  | _ => .error "TypeError: float() argument"

/-- Iterating a value (`for item in part`): only sequences are modelled as
iterable (no claim exercises iteration over a graph or a scalar). -/
def seqItems : PyVal → Except String (List PyVal)
  | .seq ys => .ok ys
  | _ => .error "TypeError: not iterable"

/-- One field of one problem instance (the body of `for part in problem:`,
pipeline.py lines 176-193):

* graph: flatten the sorted edge pairs (`gen_edges`) or the dense adjacency;
* `int`/`float` scalar: a single value;
* `part[0]` is a sequence — note this indexing raises `IndexError` on an
  empty field — then depth-2 or depth-3 comprehension flattening (chosen by
  inspecting `part[0][0]`, again an `IndexError` when `part[0]` is empty),
  every element cast with `float(x)`;
* otherwise `curr_problem_result.extend(part)`: the elements are appended
  directly (numeric values, coerced no later than the `.astype(float)` in
  `gen_data_lmdb`). -/
def flattenField (genEdges : Bool) : PyVal → Except String (List ℚ)
  | .graph adj edges =>
      if genEdges then .ok (edges.flatMap fun e => [e.1, e.2])
      else .ok adj.flatten
  | .int n => .ok [(n : ℚ)]
  | .float q => .ok [q]
  | .seq xs =>
      match xs with
      | [] => .error "IndexError: list index out of range"
      | x0 :: _ =>
        match x0 with
        | .seq ys =>
          match ys with
          | [] => .error "IndexError: list index out of range"
          | y0 :: _ =>
            match y0 with
            | .seq _ => do
                let subs ← xs.mapM seqItems
                let subsubs ← subs.flatten.mapM seqItems
                subsubs.flatten.mapM toFloat
            | _ => do
                let subs ← xs.mapM seqItems
                subs.flatten.mapM toFloat
        | _ => xs.mapM toFloat

/-- One problem instance: the concatenation of its fields' contributions, in
field order (`problem = list(problem.values())`). -/
def flattenProblem (genEdges : Bool) (problem : List PyVal) :
    Except String (List ℚ) := do
  let rs ← problem.mapM (flattenField genEdges)
  return rs.flatten

/-- `flatten_problem_parameters`: flatten every instance of every class, in
order, returning the vectors and `output_size`, the running maximum of the
unpadded lengths. -/
def flattenProblemParameters (genEdges : Bool)
    (allProblems : List (List (List PyVal))) :
    Except String (List (List ℚ) × Nat) := do
  let rs ← allProblems.flatten.mapM (flattenProblem genEdges)
  return (rs, rs.foldl (fun acc r => max acc r.length) 0)

/-- The padding step of `gen_data_lmdb` (pipeline.py lines 346-352):
`np.pad(prob, (0, output_size - len(prob)), 'constant')` right-pads with
zeros up to `output_size`. -/
def padVec (sz : Nat) (r : List ℚ) : List ℚ :=
  r ++ List.replicate (sz - r.length) 0

/-! ## Helper lemmas -/

/-- Reading index `j` of a map over `List.range`. -/
lemma getD_map_range {α : Type} (f : Nat → α) (d : α) {n j : Nat} (hj : j < n) :
    (((List.range n).map f).getD j d) = f j := by
  rw [List.getD_eq_getElem?_getD, List.getElem?_map, List.getElem?_range hj]
  rfl

/-- Reading a flat concatenation of equal-length blocks at `i * n + j` is
reading entry `j` of block `i`. -/
lemma getD_flatMap_blocks {α β : Type} (g : β → List α) (d : α) (e : β) (n : Nat)
    (hg : ∀ b : β, (g b).length = n) :
    ∀ (l : List β) (i j : Nat), i < l.length → j < n →
      (l.flatMap g).getD (i * n + j) d = (g (l.getD i e)).getD j d := by
  intro l
  induction l with
  | nil => intro i j hi _; exact absurd hi (Nat.not_lt_zero i)
  | cons b l ih =>
      intro i j hi hj
      cases i with
      | zero =>
          rw [List.flatMap_cons, Nat.zero_mul, Nat.zero_add,
            List.getD_append _ _ _ _ (by rw [hg]; exact hj)]
          rfl
      | succ i =>
          rw [List.flatMap_cons,
            List.getD_append_right _ _ _ _ (by rw [hg]; nlinarith)]
          have harith : (i + 1) * n + j - (g b).length = i * n + j := by
            rw [hg]; ring_nf; omega
          rw [harith]
          exact ih i j (Nat.lt_of_succ_lt_succ hi) hj

/-- Every block written by `writeBlock` has exactly `n` records. -/
lemma writeBlock_length (n qsize : Nat) (ms : List Mat) :
    (writeBlock n qsize ms).length = n := by
  unfold writeBlock
  split
  · rw [List.length_append, List.length_replicate]; omega
  · rw [List.length_take]; omega

/-- Within a short batch's block, the first `ms.length` records are the
batch itself. -/
lemma writeBlock_getD_lt (n qsize : Nat) (ms : List Mat) (j : Nat)
    (hshort : ms.length < n) (hj : j < ms.length) :
    (writeBlock n qsize ms).getD j (zeroMat qsize) = ms.getD j (zeroMat qsize) := by
  unfold writeBlock
  rw [if_pos hshort, List.getD_append _ _ _ _ hj]

/-- Within a short batch's block, the records past the batch are the zero
matrix. -/
lemma writeBlock_getD_ge (n qsize : Nat) (ms : List Mat) (j : Nat)
    (hshort : ms.length < n) (hge : ms.length ≤ j) :
    (writeBlock n qsize ms).getD j (zeroMat qsize) = zeroMat qsize := by
  unfold writeBlock
  rw [if_pos hshort, List.getD_append_right _ _ _ _ hge,
    List.getD_eq_getElem?_getD, List.getElem?_replicate]
  split <;> rfl

/-! ## Claim C1: the scrambler -/

/-- Claim C1 counterexample: on the matrix `[[0,1],[2,3]]` with indices
`0` and `1`, the scrambler's result (`[[2,3],[0,1]]`, rows swapped only)
differs from the symmetric permutation `Pᵀ M P` (`[[3,2],[1,0]]`) asserted
by the claim. -/
theorem scramble_ne_symmetric_permutation :
    scrambleSwap [[0,1],[2,3]] 0 1 ≠ symPermSpec [[0,1],[2,3]] 0 1 := by
  decide

/-- Claim C1 (amended): for every matrix the scrambler elects to modify it
swaps only the rows at the two chosen indices, leaving columns untouched:
row `j` of the result is row `τ j` of the original for the transposition
`τ` of the two indices (the matrix `P·M`, not `Pᵀ·M·P`). -/
theorem scramble_swaps_rows_only (M : Mat) (i1 i2 j : Nat) (hj : j < M.length) :
    (scrambleSwap M i1 i2).getD j [] = M.getD (transp i1 i2 j) [] := by
  unfold scrambleSwap transp
  rw [getD_map_range _ _ hj]
  split_ifs <;> rfl

/-- Witness for `scramble_swaps_rows_only` at the matrix `[[0,1],[2,3]]`,
indices `0 1`, row `0`. -/
theorem scramble_swaps_rows_only_witness :
    (scrambleSwap [[0,1],[2,3]] 0 1).getD 0 [] =
      ([[(0:ℚ),1],[2,3]] : Mat).getD (transp 0 1 0) [] :=
  scramble_swaps_rows_only [[0,1],[2,3]] 0 1 0 (by decide)

/-! ## Claim C7: max-abs-rescale normalization round-trip -/

/-- Claim C7 (confirmed): max-abs rescale maps every batch value `x` to
`(x/m + 1)/2` for `m` the maximum absolute value of the batch, and when
`m ≠ 0` the inverse affine map `y ↦ (2y - 1) * m` recovers the batch
exactly (over the rationals, i.e. exactly over the reals). -/
theorem norm_max_abs_roundtrip (vs : List ℚ) (h : maxAbs vs ≠ 0) :
    denormMaxAbs (maxAbs vs) (normMaxAbs vs) = vs := by
  unfold denormMaxAbs normMaxAbs
  rw [List.map_map]
  have hid : ((fun y => (2 * y - 1) * maxAbs vs) ∘
      fun x => (x / maxAbs vs + 1) / 2) = id := by
    funext x
    field_simp
    ring
  rw [hid, List.map_id]

/-- Witness for `norm_max_abs_roundtrip` on the batch `[1, -2]`
(maximum absolute value `2`). -/
theorem norm_max_abs_roundtrip_witness :
    denormMaxAbs (maxAbs [1, -2]) (normMaxAbs [1, -2]) = [1, -2] :=
  norm_max_abs_roundtrip [1, -2] (by norm_num [maxAbs])

/-! ## Claims C5, C8, C9: block layout of `data` and `labels` -/

/-- Claim C5 (confirmed): when class `i`'s generated batch has fewer than
`n_problems` matrices, the batch occupies the first `count` records of the
class's pre-allocated block of `data` and every remaining record of the
block is the zero matrix. -/
theorem short_batch_block_layout (batches : List (List Mat)) (n qsize i : Nat)
    (hi : i < batches.length) (hshort : (batches.getD i []).length < n) :
    (∀ j, j < (batches.getD i []).length →
      (genDataMats n qsize batches).getD (i * n + j) (zeroMat qsize) =
        (batches.getD i []).getD j (zeroMat qsize)) ∧
    (∀ j, (batches.getD i []).length ≤ j → j < n →
      (genDataMats n qsize batches).getD (i * n + j) (zeroMat qsize) =
        zeroMat qsize) := by
  constructor
  · intro j hj
    rw [genDataMats,
      getD_flatMap_blocks _ _ [] n (writeBlock_length n qsize) batches i j hi
        (lt_trans hj hshort)]
    exact writeBlock_getD_lt n qsize _ j hshort hj
  · intro j hge hj
    rw [genDataMats,
      getD_flatMap_blocks _ _ [] n (writeBlock_length n qsize) batches i j hi hj]
    exact writeBlock_getD_ge n qsize _ j hshort hge

/-- Witness for `short_batch_block_layout`: one class whose batch holds a
single `1 × 1` matrix `[[5]]` with `n_problems = 2`; record `0` is the
matrix and record `1` is the zero matrix. -/
theorem short_batch_block_layout_witness :
    (genDataMats 2 1 [[[[5]]]]).getD 0 (zeroMat 1) = [[(5:ℚ)]] ∧
    (genDataMats 2 1 [[[[5]]]]).getD 1 (zeroMat 1) = zeroMat 1 := by
  have h := short_batch_block_layout [[[[5]]]] 2 1 0 (by decide) (by decide)
  exact ⟨h.1 0 (by decide), h.2 1 (by decide) (by decide)⟩

/-- The label block layout, shared by the C8 and C9 theorems. -/
lemma genLabels_getD (numClasses n i j : Nat) (hi : i < numClasses) (hj : j < n) :
    (genLabels numClasses n).getD (i * n + j) numClasses = i := by
  rw [genLabels,
    getD_flatMap_blocks _ _ 0 n (fun b => List.length_replicate n b)
      (List.range numClasses) i j (by rwa [List.length_range]) hj]
  rw [List.getD_eq_getElem?_getD, List.getElem?_replicate, if_pos hj,
    Option.getD_some, List.getD_eq_getElem?_getD, List.getElem?_range hi,
    Option.getD_some]

/-- Claim C8 (confirmed): the stored integer label of every record in class
`i`'s block is `i`, the zero-based index of the class in the configured
problem list. -/
theorem labels_are_class_indices (numClasses n i j : Nat)
    (hi : i < numClasses) (hj : j < n) :
    (genLabels numClasses n).getD (i * n + j) numClasses = i :=
  genLabels_getD numClasses n i j hi hj

/-- Witness for `labels_are_class_indices`: two classes with two records
each; the third record (class `1`, offset `0`) carries label `1`. -/
theorem labels_are_class_indices_witness :
    (genLabels 2 2).getD (1 * 2 + 0) 2 = 1 :=
  labels_are_class_indices 2 2 1 0 (by decide) (by decide)

/-- Claim C9 (confirmed): the label slice of class `i` covers the full range
`[i*n_problems, (i+1)*n_problems)` even for a short batch, so a trailing
record of a short batch carries the class label while its input matrix is
all zeros. -/
theorem short_batch_trailing_labels (batches : List (List Mat))
    (n qsize i j : Nat) (hi : i < batches.length) (hj : j < n) :
    (genLabels batches.length n).getD (i * n + j) batches.length = i ∧
    ((batches.getD i []).length ≤ j →
      (genDataMats n qsize batches).getD (i * n + j) (zeroMat qsize) =
        zeroMat qsize) := by
  refine ⟨genLabels_getD batches.length n i j hi hj, fun hge => ?_⟩
  rw [genDataMats,
    getD_flatMap_blocks _ _ [] n (writeBlock_length n qsize) batches i j hi hj]
  exact writeBlock_getD_ge n qsize _ j (lt_of_le_of_lt hge hj) hge

/-- Witness for `short_batch_trailing_labels`: one class, one generated
`1 × 1` matrix, `n_problems = 2`; record `1` has label `0` and the zero
matrix as input. -/
theorem short_batch_trailing_labels_witness :
    (genLabels 1 2).getD (0 * 2 + 1) 1 = 0 ∧
    (genDataMats 2 1 [[[[5]]]]).getD (0 * 2 + 1) (zeroMat 1) = zeroMat 1 := by
  have h := short_batch_trailing_labels [[[[5]]]] 2 1 0 1 (by decide) (by decide)
  exact ⟨h.1, h.2 (by decide)⟩

/-! ## Claims C4, C10: the M2SAT customizer -/

/-- One clause adds exactly its keyed contribution at `(a, b)`. -/
lemma applyClause2_entry (m : Arr2) (cl : Lit × Lit) (a b : Nat) :
    applyClause2 m cl a b = m a b + contrib2 cl a b := by
  obtain ⟨⟨v0, p0⟩, v1, p1⟩ := cl
  cases p0 <;> cases p1 <;>
    simp [applyClause2, contrib2, m2satWeight, upd2] <;>
    split_ifs <;> first | ring1 | (exfalso; omega) | (exfalso; tauto)

/-- Folding the clause list accumulates the contributions additively. -/
lemma m2sat_foldl_entry (cls : List (Lit × Lit)) (m : Arr2) (a b : Nat) :
    (cls.foldl applyClause2 m) a b = m a b + (cls.map fun cl => contrib2 cl a b).sum := by
  induction cls generalizing m with
  | nil => simp
  | cons c cls ih =>
      rw [List.foldl_cons, ih, applyClause2_entry, List.map_cons, List.sum_cons]
      ring

/-- Claim C4 (confirmed): every M2SAT clause adds its polarity-keyed signed
contribution at `[var0][var1]` and at `[var1][var0]`, additively over
clauses, and for the single clause `((0,true),(1,true))` the resulting
matrix is `-2` at `[0][1]` and `[1][0]` and `0` everywhere else. -/
theorem m2sat_customization_accumulation :
    (∀ (cls : List (Lit × Lit)) (a b : Nat),
      m2satMatrix cls a b = (cls.map fun cl => contrib2 cl a b).sum) ∧
    (∀ a b : Nat,
      m2satMatrix [((0, true), (1, true))] a b =
        if (a = 0 ∧ b = 1) ∨ (a = 1 ∧ b = 0) then -2 else 0) := by
  have hgen : ∀ (cls : List (Lit × Lit)) (a b : Nat),
      m2satMatrix cls a b = (cls.map fun cl => contrib2 cl a b).sum := by
    intro cls a b
    rw [m2satMatrix, m2sat_foldl_entry]
    ring
  refine ⟨hgen, fun a b => ?_⟩
  rw [hgen]
  simp only [List.map_cons, List.map_nil, List.sum_cons, List.sum_nil,
    contrib2, m2satWeight]
  norm_num
  split_ifs <;> first | ring1 | (exfalso; omega) | (exfalso; tauto)

/-- Claim C10 (confirmed): a clause whose two literals share the variable
`v` writes its contribution twice into the single diagonal cell `[v][v]`;
in particular `((v,true),(v,true))` adds `-4` there, not `-2`. -/
theorem m2sat_same_variable_doubles (v : Nat) (p0 p1 : Bool) :
    m2satMatrix [((v, p0), (v, p1))] v v = 2 * m2satWeight p0 p1 ∧
    m2satMatrix [((v, true), (v, true))] v v = -4 := by
  have h : ∀ q0 q1 : Bool,
      m2satMatrix [((v, q0), (v, q1))] v v = 2 * m2satWeight q0 q1 := by
    intro q0 q1
    rw [m2satMatrix, m2sat_foldl_entry]
    simp [contrib2]
    ring
  refine ⟨h p0 p1, ?_⟩
  rw [h true true]
  norm_num [m2satWeight]

/-! ## Claim C3: the M3SAT customizer -/

/-- Folding `+= V` updates over a list of literal triples adds `V` once per
triple whose variable indices land on the coordinate. -/
lemma fold_upd3_entry (V : ℚ) (ps : List (Lit × Lit × Lit)) :
    ∀ (t : Arr3) (a b c : Nat),
      (ps.foldl (fun t p => upd3 t p.1.1 p.2.1.1 p.2.2.1 V) t) a b c =
        t a b c +
          ((ps.filter fun p => a = p.1.1 ∧ b = p.2.1.1 ∧ c = p.2.2.1).length : ℚ) * V := by
  induction ps with
  | nil => simp
  | cons p ps ih =>
      intro t a b c
      rw [List.foldl_cons, ih, List.filter_cons]
      by_cases h : a = p.1.1 ∧ b = p.2.1.1 ∧ c = p.2.2.1
      · rw [if_pos (decide_eq_true h), List.length_cons]
        simp only [upd3, if_pos h]
        push_cast
        ring
      · rw [if_neg (by simpa using h)]
        simp only [upd3, if_neg h]

/-- One clause application adds `value` once per literal permutation whose
variable indices land on the coordinate. -/
lemma applyClause3_entry (t : Arr3) (cl : Lit × Lit × Lit) (a b c : Nat) :
    applyClause3 t cl a b c =
      t a b c + (permCount cl a b c : ℚ) * m3satValue cl.1.2 cl.2.1.2 cl.2.2.2 :=
  fold_upd3_entry (m3satValue cl.1.2 cl.2.1.2 cl.2.2.2) (perms3 cl) t a b c

/-- Folding the clause list accumulates the per-clause additions. -/
lemma m3sat_foldl_entry (cls : List (Lit × Lit × Lit)) (t : Arr3) (a b c : Nat) :
    (cls.foldl applyClause3 t) a b c =
      t a b c + (cls.map fun cl =>
        (permCount cl a b c : ℚ) * m3satValue cl.1.2 cl.2.1.2 cl.2.2.2).sum := by
  induction cls generalizing t with
  | nil => simp
  | cons cl cls ih =>
      rw [List.foldl_cons, ih, applyClause3_entry, List.map_cons, List.sum_cons]
      ring

/-- Claim C3 counterexample: the value table is not symmetric in sign
across complementary polarity patterns: the all-true pattern maps to `-4`
while its bitwise complement, the all-false pattern, maps to `3` (not `4`). -/
theorem m3sat_value_not_sign_symmetric :
    m3satValue true true true = -4 ∧ m3satValue false false false = 3 ∧
    m3satValue true true true ≠ -(m3satValue false false false) := by
  refine ⟨rfl, rfl, ?_⟩
  norm_num [m3satValue]

/-- Claim C3 (amended): the clause value is a function of the polarity
pattern alone, given by the enumerated table `(T,T,T) ↦ -4`, `(T,F,T) ↦ -3`,
`(T,T,F) ↦ -2`, `(T,F,F) ↦ -1`, `(F,T,T) ↦ 1`, `(F,F,T) ↦ 2`, `(F,F,F) ↦ 3`,
`(F,T,F) ↦ 4` — the eight values are exactly the integers `-4..4` excluding
`0`, but not negated across complementary patterns — and each clause
accumulates its value at the coordinates of all six permutations of its
variable indices; for clause `((0,true),(1,true),(2,true))` the tensor holds
`-4` at every permutation of `(0,1,2)` and `0` everywhere else. -/
theorem m3sat_customization_accumulation :
    (m3satValue true true true = -4 ∧ m3satValue true false true = -3 ∧
     m3satValue true true false = -2 ∧ m3satValue true false false = -1 ∧
     m3satValue false true true = 1 ∧ m3satValue false false true = 2 ∧
     m3satValue false false false = 3 ∧ m3satValue false true false = 4) ∧
    (∀ p0 p1 p2 : Bool,
      m3satValue p0 p1 p2 ∈ ([-4, -3, -2, -1, 1, 2, 3, 4] : List ℚ)) ∧
    (∀ (t : Arr3) (cl : Lit × Lit × Lit) (a b c : Nat),
      applyClause3 t cl a b c =
        t a b c + (permCount cl a b c : ℚ) * m3satValue cl.1.2 cl.2.1.2 cl.2.2.2) ∧
    (∀ a b c : Nat,
      m3satTensor [((0, true), (1, true), (2, true))] a b c =
        if (a, b, c) ∈ ([(0,1,2), (0,2,1), (1,0,2), (1,2,0), (2,0,1), (2,1,0)] :
            List (Nat × Nat × Nat)) then -4 else 0) := by
  refine ⟨⟨rfl, rfl, rfl, rfl, rfl, rfl, rfl, rfl⟩, ?_, applyClause3_entry, ?_⟩
  · intro p0 p1 p2
    cases p0 <;> cases p1 <;> cases p2 <;> decide
  · intro a b c
    by_cases hm : (a, b, c) ∈ ([(0,1,2), (0,2,1), (1,0,2), (1,2,0), (2,0,1),
        (2,1,0)] : List (Nat × Nat × Nat))
    · rw [if_pos hm]
      simp only [List.mem_cons, List.not_mem_nil, or_false,
        Prod.mk.injEq] at hm
      rcases hm with ⟨ha, hb, hc⟩ | ⟨ha, hb, hc⟩ | ⟨ha, hb, hc⟩ |
        ⟨ha, hb, hc⟩ | ⟨ha, hb, hc⟩ | ⟨ha, hb, hc⟩ <;>
        subst ha <;> subst hb <;> subst hc <;>
        norm_num [m3satTensor, applyClause3, perms3, upd3, m3satValue]
    · rw [if_neg hm, m3satTensor, List.foldl_cons, List.foldl_nil,
        applyClause3_entry]
      have hcount : permCount ((0, true), (1, true), (2, true)) a b c = 0 := by
        simp only [List.mem_cons, List.not_mem_nil, or_false,
          Prod.mk.injEq, not_or] at hm
        simp only [permCount, perms3, List.length_eq_zero,
          List.filter_eq_nil_iff, List.mem_cons, List.not_mem_nil, or_false,
          decide_eq_true_eq]
        intro p hp
        rcases hp with rfl | rfl | rfl | rfl | rfl | rfl
        · exact hm.1
        · exact hm.2.1
        · exact hm.2.2.1
        · exact hm.2.2.2.1
        · exact hm.2.2.2.2.1
        · exact hm.2.2.2.2.2
      rw [hcount]
      norm_num

/-! ## Claim C2: empty and single-element fields in the flattener -/

/-- Claim C2 counterexample: an instance whose only field is an empty
sequence does not flatten — the type dispatch indexes `part[0]` and raises
`IndexError`, so the claim that empty-sequence fields "must not throw"
fails on the code. -/
theorem flatten_empty_field_raises :
    flattenProblem false [PyVal.seq []] =
      Except.error "IndexError: list index out of range" := rfl

/-- Claim C2 (amended): a length-1 sequence field does not throw — it is
dispatched to the `extend(part)` branch and contributes its single element —
but an empty-sequence field raises `IndexError` from the `part[0]` type
dispatch rather than contributing zero values. -/
theorem flatten_single_element_field_ok :
    (∀ (ge : Bool) (q : ℚ),
      flattenField ge (PyVal.seq [PyVal.float q]) = Except.ok [q]) ∧
    (∀ (ge : Bool) (n : Int),
      flattenField ge (PyVal.seq [PyVal.int n]) = Except.ok [(n : ℚ)]) ∧
    (∀ (ge : Bool) (q : ℚ),
      flattenProblem ge [PyVal.seq [PyVal.float q]] = Except.ok [q]) ∧
    (∀ ge : Bool, flattenProblem ge [PyVal.seq []] =
      Except.error "IndexError: list index out of range") := by
  refine ⟨fun ge q => rfl, fun ge n => rfl, fun ge q => rfl, fun ge => rfl⟩

/-! ## Claim C6: padded vector widths -/

/-- The running-maximum fold never drops below its start value. -/
lemma start_le_foldl_len_max (l : List (List ℚ)) :
    ∀ a : Nat, a ≤ l.foldl (fun acc r => max acc r.length) a := by
  induction l with
  | nil => intro a; exact le_refl a
  | cons r l ih =>
      intro a
      exact le_trans (le_max_left a r.length) (ih (max a r.length))

/-- Every flattened vector's length is bounded by the running maximum. -/
lemma mem_len_le_foldl_len_max (l : List (List ℚ)) :
    ∀ (a : Nat) (r : List ℚ), r ∈ l →
      r.length ≤ l.foldl (fun acc r => max acc r.length) a := by
  induction l with
  | nil => intro a r hr; exact absurd hr (List.not_mem_nil r)
  | cons r0 l ih =>
      intro a r hr
      rcases List.mem_cons.mp hr with rfl | hr
      · exact le_trans (le_max_right a r.length)
          (start_le_foldl_len_max l (max a r.length))
      · exact ih (max a r0.length) r hr

/-- The running maximum is the start value or some vector's length. -/
lemma foldl_len_max_attained (l : List (List ℚ)) :
    ∀ a : Nat, l.foldl (fun acc r => max acc r.length) a = a ∨
      ∃ r ∈ l, l.foldl (fun acc r => max acc r.length) a = r.length := by
  induction l with
  | nil => intro a; exact Or.inl rfl
  | cons r0 l ih =>
      intro a
      rcases ih (max a r0.length) with h | ⟨r, hr, h⟩
      · rcases max_choice a r0.length with hm | hm
        · exact Or.inl (by rw [List.foldl_cons, h, hm])
        · exact Or.inr ⟨r0, List.mem_cons_self r0 l, by rw [List.foldl_cons, h, hm]⟩
      · exact Or.inr ⟨r, List.mem_cons_of_mem r0 hr, by rw [List.foldl_cons, h]⟩

/-- Claim C6 (confirmed): `output_size` bounds every unpadded length and is
attained by some instance of the batch, and padding makes every vector
exactly `output_size` long, with the original vector as its prefix and
zeros everywhere beyond it. -/
theorem flatten_pad_uniform (ge : Bool) (aps : List (List (List PyVal)))
    (rs : List (List ℚ)) (sz : Nat)
    (h : flattenProblemParameters ge aps = Except.ok (rs, sz)) :
    (∀ r ∈ rs, r.length ≤ sz) ∧
    (rs ≠ [] → ∃ r ∈ rs, r.length = sz) ∧
    (∀ r ∈ rs, (padVec sz r).length = sz ∧
      (padVec sz r).take r.length = r ∧
      (padVec sz r).drop r.length = List.replicate (sz - r.length) 0) := by
  have hsz : sz = rs.foldl (fun acc r => max acc r.length) 0 := by
    unfold flattenProblemParameters at h
    cases hmm : aps.flatten.mapM (flattenProblem ge) with
    | error e => rw [hmm] at h; exact absurd h (by simp [Except.bind])
    | ok rs' =>
        rw [hmm] at h
        have hpair : (rs', rs'.foldl (fun acc r => max acc r.length) 0) =
            (rs, sz) := Except.ok.inj h
        rw [Prod.mk.injEq] at hpair
        rw [← hpair.1, ← hpair.2]
  have hub : ∀ r ∈ rs, r.length ≤ sz := by
    intro r hr
    rw [hsz]
    exact mem_len_le_foldl_len_max rs 0 r hr
  refine ⟨hub, ?_, ?_⟩
  · intro hne
    rcases foldl_len_max_attained rs 0 with h0 | ⟨r, hr, hlen⟩
    · rcases rs with _ | ⟨r0, rs'⟩
      · exact absurd rfl hne
      · refine ⟨r0, List.mem_cons_self r0 rs', ?_⟩
        have := hub r0 (List.mem_cons_self r0 rs')
        rw [hsz, h0]
        rw [hsz, h0] at this
        omega
    · exact ⟨r, hr, by rw [hsz, hlen]⟩
  · intro r hr
    have hle := hub r hr
    refine ⟨?_, ?_, ?_⟩
    · rw [padVec, List.length_append, List.length_replicate]
      omega
    · rw [padVec, List.take_left]
    · rw [padVec, List.drop_left]

/-- Witness for `flatten_pad_uniform`: the batch of two instances
`[1]` and `[2, 3]` flattens with `output_size = 2`; the first vector pads to
`[1, 0]`. -/
theorem flatten_pad_uniform_witness :
    (padVec 2 [(1:ℚ)]).length = 2 ∧
    (padVec 2 [(1:ℚ)]).take 1 = [(1:ℚ)] ∧
    (padVec 2 [(1:ℚ)]).drop 1 = List.replicate 1 0 := by
  have h := flatten_pad_uniform false
    [[[PyVal.float 1], [PyVal.float 2, PyVal.float 3]]] [[1], [2, 3]] 2 rfl
  have h2 := h.2.2 [1] (by simp)
  exact ⟨h2.1, by simpa using h2.2.1, by simpa using h2.2.2⟩

end QuboNN
